import Mathlib

/-!
Verification development for the secure-value tree processor of
generate-secure-pillar (package `sls`, file `sls.go`).

The Go source is shallowly embedded: each Lean definition below mirrors one
Go function of `sls.go` (names are kept).  The document tree
(`map[interface{}]interface{}` / `[]interface{}` / `string` / nil values
produced by YAML unmarshalling) is embedded as the inductive type `SVal`;
Go maps are embedded as association lists in a fixed (insertion) order,
with key uniqueness assumed where Go map semantics guarantees it.
The PGP backend (`pki.Pki`, an external collaborator) is an abstract record
of Go-style `(value, error)` functions.  Filesystem effects are embedded as
explicit state passing over a path-to-contents function, with failure
injection for the fallible steps.
-/

namespace Gsp

/-- `pgpHeader` constant from sls.go: the encryption marker. -/
def pgpHeader : String := "-----BEGIN PGP MESSAGE-----"

/-- `Encrypt` action constant from sls.go. -/
def Encrypt : String := "encrypt"

/-- `Decrypt` action constant from sls.go. -/
def Decrypt : String := "decrypt"

/-- `Validate` action constant from sls.go. -/
def Validate : String := "validate"

/-- `Rotate` action constant from sls.go. -/
def Rotate : String := "rotate"

/-- `validAction` from sls.go. -/
def validAction (action : String) : Bool :=
  action = Encrypt || action = Decrypt || action = Validate || action = Rotate

/-- Helper for `containsSubstr`: does `pat` occur as a contiguous block in `s`
(both as char lists)?  Embeds Go `strings.Contains`. -/
def containsAux (pat : List Char) : List Char → Bool
  | [] => pat.isPrefixOf []
  | c :: rest => pat.isPrefixOf (c :: rest) || containsAux pat rest

/-- Go `strings.Contains s pat`. -/
def containsSubstr (s pat : String) : Bool :=
  containsAux pat.data s.data

/-- `isEncrypted` from sls.go: `strings.Contains(str, pgpHeader)` — a
substring check anywhere in the string, not a prefix check. -/
def isEncrypted (str : String) : Bool :=
  containsSubstr str pgpHeader

/-- The PGP backend interface (`pki.Pki`, external collaborator).  Each
method is a Go-style function returning a value together with an optional
error, exactly the shape the sls.go call sites consume. -/
structure Pki where
  EncryptSecret : String → String × Option String
  DecryptSecret : String → String × Option String
  KeyUsedForEncryptedFile : String → String × Option String

/-- `decryptVal` from sls.go: if the value carries the marker, delegate to
the backend (wrapping a backend error); otherwise return the value
unchanged with no error. -/
def decryptVal (s : Pki) (strVal : String) : String × Option String :=
  if isEncrypted strVal then
    match s.DecryptSecret strVal with
    | (plainText, none) => (plainText, none)
    | (_, some e) => (strVal, some ("error decrypting value: " ++ e))
  else
    (strVal, none)

/-- `rotateVal` from sls.go: decrypt, and unless that errored, re-encrypt
the result with the current backend. -/
def rotateVal (s : Pki) (strVal : String) : String × Option String :=
  match decryptVal s strVal with
  | (v, some e) => (v, some e)
  | (v, none) => s.EncryptSecret v

/-- `keyInfo` from sls.go: on a non-encrypted value, error out immediately;
otherwise query the backend for the key identity.  The Go code writes the
ciphertext to a temp file and passes the file name to
`Pki.KeyUsedForEncryptedFile`; the temp-file plumbing is absorbed into the
abstract backend call (temp-file failures are folded into the backend
error), which is faithful for every claim below since the non-encrypted
branch returns before any file activity. -/
def keyInfo (s : Pki) (val : String) : String × Option String :=
  if !isEncrypted val then
    (val, some "value is not encrypted")
  else
    match s.KeyUsedForEncryptedFile val with
    | (ki, none) => (ki, none)
    | (_, some e) => (val, some ("keyInfo: " ++ e))

/-- `doString` from sls.go: the per-scalar action dispatch.  Each case on
error returns the original value together with the error; an unknown
action falls through returning the value unchanged. -/
def doString (s : Pki) (val : String) (action : String) : String × Option String :=
  if action = Decrypt then
    match decryptVal s val with
    | (v, none) => (v, none)
    | (_, some e) => (val, some e)
  else if action = Encrypt then
    if !isEncrypted val then
      match s.EncryptSecret val with
      | (v, none) => (v, none)
      | (_, some e) => (val, some e)
    else (val, none)
  else if action = Validate then
    match keyInfo s val with
    | (v, none) => (v, none)
    | (_, some e) => (val, some e)
  else if action = Rotate then
    match rotateVal s val with
    | (v, none) => (v, none)
    | (_, some e) => (val, some e)
  else (val, none)

/-- A concrete backend used for witnesses and counterexamples: encryption
prepends the PGP marker, decryption and key identification are identity. -/
def pkiOk : Pki :=
  ⟨fun s => (pgpHeader ++ " " ++ s, none),
   fun s => (s, none),
   fun _ => ("KEY-ID", none)⟩

/-- The document value tree: the shapes `ProcessValues` dispatches on
(`reflect.Slice`, `reflect.Map`, `reflect.String`, nil).  Go maps are
embedded as association lists in a fixed order (Go randomizes map
iteration order; the model fixes the arbitrary list order), with the Go
invariant of unique keys assumed where needed. -/
inductive SVal where
  | str : String → SVal
  | list : List SVal → SVal
  | map : List (String × SVal) → SVal
  | null : SVal

mutual

/-- `ProcessValues` from sls.go: dispatch on the runtime shape of the
value; nil maps to nil with no error; unhandled kinds do not occur for
the four `SVal` shapes. -/
def ProcessValues (p : Pki) (action : String) (vals : SVal) : SVal × Option String :=
  match vals with
  | SVal.null => (SVal.null, none)
  | SVal.list items => doSlice p action items
  | SVal.map entries =>
    let r := doMap p action entries
    (SVal.map r.1, r.2)
  | SVal.str v =>
    let r := doString p v action
    (SVal.str r.1, r.2)

/-- `doSlice` from sls.go: process the items; the first item error makes
the Go code return the original slice together with that error
(fail-fast); otherwise the rebuilt list is returned with no error. -/
def doSlice (p : Pki) (action : String) (vals : List SVal) : SVal × Option String :=
  match doSliceAux p action vals with
  | Except.ok things => (SVal.list things, none)
  | Except.error e => (SVal.list vals, some e)
termination_by sizeOf vals + 1

/-- The item loop of `doSlice` from sls.go, with the Go early `return
vals, err` embedded as `Except` short-circuiting (the enclosing `doSlice`
restores the original list on error).  A nil item makes the Go code panic
(`reflect.TypeOf(nil).Kind()` on a nil interface); since nothing recovers,
the panic is embedded as an immediate error; theorems about slices only
quantify over null-free trees, so this choice is never load-bearing. -/
def doSliceAux (p : Pki) (action : String) (vals : List SVal) : Except String (List SVal) :=
  match vals with
  | [] => Except.ok []
  | item :: rest =>
    match item with
    | SVal.null => Except.error "panic: nil item in slice"
    | SVal.str sv =>
      match doString p sv action with
      | (r, none) => (doSliceAux p action rest).map (fun rs => SVal.str r :: rs)
      | (_, some e) => Except.error e
    | SVal.list l =>
      match doSlice p action l with
      | (r, none) => (doSliceAux p action rest).map (fun rs => r :: rs)
      | (_, some e) => Except.error e
    | SVal.map m =>
      match doMap p action m with
      | (r, none) => (doSliceAux p action rest).map (fun rs => SVal.map r :: rs)
      | (_, some e) => Except.error e
termination_by sizeOf vals

/-- `doMap` from sls.go (entry point of the entry loop). -/
def doMap (p : Pki) (action : String) (vals : List (String × SVal)) :
    List (String × SVal) × Option String :=
  doMapLoop p action vals [] none
termination_by sizeOf vals + 1

/-- The entry loop of `doMap` from sls.go.  A nil value triggers the Go
`return ret, err` mid-loop (the entries processed so far, with the error
of the previous iteration).  Otherwise every entry is processed and `err`
is overwritten on each iteration — the loop does not break on error, so a
later successful entry masks an earlier error. -/
def doMapLoop (p : Pki) (action : String) (vals ret : List (String × SVal))
    (err : Option String) : List (String × SVal) × Option String :=
  match vals with
  | [] => (ret, err)
  | (key, val) :: rest =>
    match val with
    | SVal.null => (ret, err)
    | SVal.str sv =>
      let r := doString p sv action
      doMapLoop p action rest (ret ++ [(key, SVal.str r.1)]) r.2
    | SVal.list l =>
      let r := doSlice p action l
      doMapLoop p action rest (ret ++ [(key, r.1)]) r.2
    | SVal.map m =>
      let r := doMap p action m
      doMapLoop p action rest (ret ++ [(key, SVal.map r.1)]) r.2
termination_by sizeOf vals

end

mutual

/-- No `null` occurs anywhere in the tree (the Go code treats nil values
specially: `doMap` returns early, and a nil slice item panics). -/
def nullFree : SVal → Bool
  | SVal.null => false
  | SVal.str _ => true
  | SVal.list l => nullFreeL l
  | SVal.map m => nullFreeM m
termination_by v => sizeOf v

/-- `nullFree` over list items. -/
def nullFreeL : List SVal → Bool
  | [] => true
  | v :: vs => nullFree v && nullFreeL vs
termination_by l => sizeOf l

/-- `nullFree` over mapping entries. -/
def nullFreeM : List (String × SVal) → Bool
  | [] => true
  | (_, v) :: vs => nullFree v && nullFreeM vs
termination_by m => sizeOf m

end

@[simp] theorem nullFree_null : nullFree SVal.null = false := by rw [nullFree]

@[simp] theorem nullFree_str (s : String) : nullFree (SVal.str s) = true := by rw [nullFree]

@[simp] theorem nullFree_list (l : List SVal) : nullFree (SVal.list l) = nullFreeL l := by
  rw [nullFree]

@[simp] theorem nullFree_map (m : List (String × SVal)) :
    nullFree (SVal.map m) = nullFreeM m := by rw [nullFree]

@[simp] theorem nullFreeL_nil : nullFreeL [] = true := by rw [nullFreeL]

@[simp] theorem nullFreeL_cons (v : SVal) (vs : List SVal) :
    nullFreeL (v :: vs) = (nullFree v && nullFreeL vs) := by rw [nullFreeL]

@[simp] theorem nullFreeM_nil : nullFreeM [] = true := by rw [nullFreeM]

@[simp] theorem nullFreeM_cons (k : String) (v : SVal) (vs : List (String × SVal)) :
    nullFreeM ((k, v) :: vs) = (nullFree v && nullFreeM vs) := by rw [nullFreeM]

mutual

/-- The shape of a tree: scalar content erased, everything else (keys,
lengths, order, node kinds) kept. -/
def shapeOf : SVal → SVal
  | SVal.null => SVal.null
  | SVal.str _ => SVal.str ""
  | SVal.list l => SVal.list (shapeOfL l)
  | SVal.map m => SVal.map (shapeOfM m)
termination_by v => sizeOf v

/-- `shapeOf` over list items. -/
def shapeOfL : List SVal → List SVal
  | [] => []
  | v :: vs => shapeOf v :: shapeOfL vs
termination_by l => sizeOf l

/-- `shapeOf` over mapping entries (keys preserved). -/
def shapeOfM : List (String × SVal) → List (String × SVal)
  | [] => []
  | (k, v) :: vs => (k, shapeOf v) :: shapeOfM vs
termination_by m => sizeOf m

end

@[simp] theorem shapeOf_null : shapeOf SVal.null = SVal.null := by rw [shapeOf]

@[simp] theorem shapeOf_str (s : String) : shapeOf (SVal.str s) = SVal.str "" := by
  rw [shapeOf]

@[simp] theorem shapeOf_list (l : List SVal) :
    shapeOf (SVal.list l) = SVal.list (shapeOfL l) := by rw [shapeOf]

@[simp] theorem shapeOf_map (m : List (String × SVal)) :
    shapeOf (SVal.map m) = SVal.map (shapeOfM m) := by rw [shapeOf]

@[simp] theorem shapeOfL_nil : shapeOfL [] = [] := by rw [shapeOfL]

@[simp] theorem shapeOfL_cons (v : SVal) (vs : List SVal) :
    shapeOfL (v :: vs) = shapeOf v :: shapeOfL vs := by rw [shapeOfL]

@[simp] theorem shapeOfM_nil : shapeOfM [] = [] := by rw [shapeOfM]

@[simp] theorem shapeOfM_cons (k : String) (v : SVal) (vs : List (String × SVal)) :
    shapeOfM ((k, v) :: vs) = (k, shapeOf v) :: shapeOfM vs := by rw [shapeOfM]

theorem shapeOfL_append (a b : List SVal) :
    shapeOfL (a ++ b) = shapeOfL a ++ shapeOfL b := by
  induction a with
  | nil => simp [shapeOfL]
  | cons v vs ih => simp [shapeOfL, ih]

theorem shapeOfM_append (a b : List (String × SVal)) :
    shapeOfM (a ++ b) = shapeOfM a ++ shapeOfM b := by
  induction a with
  | nil => simp [shapeOfM]
  | cons kv vs ih =>
    obtain ⟨k, v⟩ := kv
    simp [shapeOfM, ih]

theorem sval_sizeOf_pos (v : SVal) : 0 < sizeOf v := by
  cases v <;> simp_arith

/-- Master lemma for structural preservation: at every level of the
dispatcher recursion, over null-free subtrees, the output shape equals the
input shape (on error, `doSlice` returns the original slice and `doString`
the original scalar, and `doMapLoop` stores the returned value and keeps
iterating — so the shape is preserved whether or not errors occur). -/
theorem shapeAll (p : Pki) (a : String) : ∀ n : Nat,
    (∀ l : List SVal, sizeOf l ≤ n → nullFreeL l = true →
      ∀ res, doSliceAux p a l = Except.ok res → shapeOfL res = shapeOfL l) ∧
    (∀ l : List SVal, sizeOf l ≤ n → nullFreeL l = true →
      shapeOf (doSlice p a l).1 = SVal.list (shapeOfL l)) ∧
    (∀ (m ret : List (String × SVal)) (err : Option String), sizeOf m ≤ n →
      nullFreeM m = true →
      shapeOfM (doMapLoop p a m ret err).1 = shapeOfM ret ++ shapeOfM m) ∧
    (∀ m : List (String × SVal), sizeOf m ≤ n → nullFreeM m = true →
      shapeOfM (doMap p a m).1 = shapeOfM m) ∧
    (∀ v : SVal, sizeOf v ≤ n → nullFree v = true →
      shapeOf (ProcessValues p a v).1 = shapeOf v) := by
  intro n
  induction n with
  | zero =>
    refine ⟨?_, ?_, ?_, ?_, ?_⟩
    · intro l hs _ res _; exfalso; cases l <;> simp_arith at hs
    · intro l hs _; exfalso; cases l <;> simp_arith at hs
    · intro m ret err hs _; exfalso; cases m <;> simp_arith at hs
    · intro m hs _; exfalso; cases m <;> simp_arith at hs
    · intro v hs _; exfalso; have := sval_sizeOf_pos v; omega
  | succ n ih =>
    obtain ⟨ihAux, ihSlice, ihLoop, ihMap, _⟩ := ih
    have hAux : ∀ l : List SVal, sizeOf l ≤ n + 1 → nullFreeL l = true →
        ∀ res, doSliceAux p a l = Except.ok res → shapeOfL res = shapeOfL l := by
      intro l hs hnf res heq
      match l, hs, hnf, heq with
      | [], hs, hnf, heq =>
        simp [doSliceAux] at heq
        subst heq; rfl
      | item :: rest, hs, hnf, heq =>
        have hsr : sizeOf rest ≤ n := by
          have := sval_sizeOf_pos item; simp_arith at hs; omega
        simp only [nullFreeL_cons, Bool.and_eq_true] at hnf
        obtain ⟨hitem, hrest⟩ := hnf
        match item, hs, hitem, heq with
        | SVal.null, _, hitem, _ => simp at hitem
        | SVal.str sv, hs, hitem, heq =>
          rw [doSliceAux] at heq
          rcases hds : doString p sv a with ⟨r, e⟩
          rw [hds] at heq
          match e with
          | some e0 => simp at heq
          | none =>
            simp only at heq
            rcases haux : doSliceAux p a rest with rs | rs
            · rw [haux] at heq; simp [Except.map] at heq
            · rw [haux] at heq
              simp [Except.map] at heq
              subst heq
              simp [ihAux rest hsr hrest rs haux]
        | SVal.list l2, hs, hitem, heq =>
          have hsl2 : sizeOf l2 ≤ n := by simp_arith at hs; omega
          rw [doSliceAux] at heq
          rcases hds : doSlice p a l2 with ⟨r, e⟩
          rw [hds] at heq
          match e with
          | some e0 => simp at heq
          | none =>
            simp only at heq
            rcases haux : doSliceAux p a rest with rs | rs
            · rw [haux] at heq; simp [Except.map] at heq
            · rw [haux] at heq
              simp [Except.map] at heq
              subst heq
              have hr : shapeOf r = SVal.list (shapeOfL l2) := by
                have h2 := ihSlice l2 hsl2 (by simpa using hitem)
                rw [hds] at h2; exact h2
              simp [hr, ihAux rest hsr hrest rs haux]
        | SVal.map m2, hs, hitem, heq =>
          have hsm2 : sizeOf m2 ≤ n := by simp_arith at hs; omega
          rw [doSliceAux] at heq
          rcases hds : doMap p a m2 with ⟨r, e⟩
          rw [hds] at heq
          match e with
          | some e0 => simp at heq
          | none =>
            simp only at heq
            rcases haux : doSliceAux p a rest with rs | rs
            · rw [haux] at heq; simp [Except.map] at heq
            · rw [haux] at heq
              simp [Except.map] at heq
              subst heq
              have hr : shapeOfM r = shapeOfM m2 := by
                have h2 := ihMap m2 hsm2 (by simpa using hitem)
                rw [hds] at h2; exact h2
              simp [hr, ihAux rest hsr hrest rs haux]
    have hSlice : ∀ l : List SVal, sizeOf l ≤ n + 1 → nullFreeL l = true →
        shapeOf (doSlice p a l).1 = SVal.list (shapeOfL l) := by
      intro l hs hnf
      rw [doSlice]
      rcases haux : doSliceAux p a l with e | things
      · simp
      · simp [hAux l hs hnf things haux]
    have hLoop : ∀ (m ret : List (String × SVal)) (err : Option String),
        sizeOf m ≤ n + 1 → nullFreeM m = true →
        shapeOfM (doMapLoop p a m ret err).1 = shapeOfM ret ++ shapeOfM m := by
      intro m ret err hs hnf
      match m, hs, hnf with
      | [], hs, hnf => simp [doMapLoop]
      | (k, v) :: rest, hs, hnf =>
        have hsr : sizeOf rest ≤ n := by
          have := sval_sizeOf_pos v; simp_arith at hs; omega
        simp only [nullFreeM_cons, Bool.and_eq_true] at hnf
        obtain ⟨hv, hrest⟩ := hnf
        match v, hs, hv with
        | SVal.null, _, hv => simp at hv
        | SVal.str sv, hs, hv =>
          simp only [doMapLoop]
          rw [ihLoop rest _ _ hsr hrest]
          simp [shapeOfM_append]
        | SVal.list l2, hs, hv =>
          have hsl2 : sizeOf l2 ≤ n := by simp_arith at hs; omega
          simp only [doMapLoop]
          rw [ihLoop rest _ _ hsr hrest]
          have hr := ihSlice l2 hsl2 (by simpa using hv)
          simp [shapeOfM_append, hr]
        | SVal.map m2, hs, hv =>
          have hsm2 : sizeOf m2 ≤ n := by simp_arith at hs; omega
          simp only [doMapLoop]
          rw [ihLoop rest _ _ hsr hrest]
          have hr := ihMap m2 hsm2 (by simpa using hv)
          simp [shapeOfM_append, hr]
    have hMap : ∀ m : List (String × SVal), sizeOf m ≤ n + 1 →
        nullFreeM m = true → shapeOfM (doMap p a m).1 = shapeOfM m := by
      intro m hs hnf
      rw [doMap, hLoop m [] none hs hnf]
      simp
    refine ⟨hAux, hSlice, hLoop, hMap, ?_⟩
    intro v hs hnf
    match v, hs, hnf with
    | SVal.null, _, _ => rfl
    | SVal.str sv, _, _ => simp [ProcessValues]
    | SVal.list items, hs, hnf =>
      have hsi : sizeOf items ≤ n + 1 := by simp_arith at hs; omega
      rw [ProcessValues, shapeOf_list]
      exact hSlice items hsi (by simpa using hnf)
    | SVal.map entries, hs, hnf =>
      have hse : sizeOf entries ≤ n + 1 := by simp_arith at hs; omega
      rw [ProcessValues]
      simp only [shapeOf_map]
      rw [hMap entries hse (by simpa using hnf)]

/-- Association-list lookup, embedding Go map indexing `m[k]` over the
fixed-order entry list. -/
def lookupKey (vals : List (String × SVal)) (k : String) : Option SVal :=
  match vals with
  | [] => none
  | (k2, v) :: rest => if k2 = k then some v else lookupKey rest k

/-- Go `strings.Split` on a single separator char, over char lists:
`splitCharsOn c l` never returns an empty list, and splitting the empty
list gives one empty group. -/
def splitCharsOn (c : Char) : List Char → List (List Char)
  | [] => [[]]
  | ch :: rest =>
    if ch = c then [] :: splitCharsOn c rest
    else
      match splitCharsOn c rest with
      | [] => [[ch]]
      | g :: gs => (ch :: g) :: gs

/-- Go `strings.Split(s, c)` for a one-char separator. -/
def goSplit (s : String) (c : Char) : List String :=
  (splitCharsOn c s.data).map (fun l => String.mk l)

/-- Modelled from the spec: the external yaml library `Yaml.Get` consumed
by `GetValueFromPath` is not under src/.  Following spec section 4.2, it
walks the path parts as successive mapping-key lookups and returns
absent (nil) if any intermediate key is missing or not a mapping; it
never creates structure. -/
def yamlGet (values : List (String × SVal)) : List String → SVal
  | [] => SVal.null
  | [part] => (lookupKey values part).getD SVal.null
  | part :: rest =>
    match lookupKey values part with
    | some (SVal.map m) => yamlGet m rest
    | _ => SVal.null

/-- `GetValueFromPath` from sls.go: split the path string on the colon and
walk the parts with the yaml getter. -/
def GetValueFromPath (values : List (String × SVal)) (path : String) : SVal :=
  yamlGet values (goSplit path ':')

/-- The key loop of `PerformAction` from sls.go, iterating over the
top-level entries (Go iterates the map keys in unspecified order; the
model fixes the list order).  Each key is re-resolved through
`GetValueFromPath`; with a non-empty encryption path only the matching
key is processed; a `ProcessValues` error is returned at once (the Go
code returns the empty buffer and the error, leaving `Yaml.Values`
unreplaced — embedded as `Except.error`). -/
def PerformActionLoop (p : Pki) (values : List (String × SVal))
    (encPath action : String) (work stuff : List (String × SVal)) :
    Except String (List (String × SVal)) :=
  match work with
  | [] => Except.ok stuff
  | (key, _) :: rest =>
    let vals := GetValueFromPath values key
    if encPath ≠ "" then
      if encPath = key then
        match ProcessValues p action vals with
        | (r, none) => PerformActionLoop p values encPath action rest (stuff ++ [(key, r)])
        | (_, some e) => Except.error e
      else PerformActionLoop p values encPath action rest (stuff ++ [(key, vals)])
    else
      match ProcessValues p action vals with
      | (r, none) => PerformActionLoop p values encPath action rest (stuff ++ [(key, r)])
      | (_, some e) => Except.error e

/-- `PerformAction` from sls.go, up to serialization: for a valid action
the transformed top-level mapping `stuff` is built (and committed to
`Yaml.Values`, or to `KeyMap` for the validate action); for an invalid
action the values are left untouched.  The final `FormatBuffer`
serialization carries no further claim content and is not modelled. -/
def PerformAction (p : Pki) (values : List (String × SVal))
    (encPath action : String) : Except String (List (String × SVal)) :=
  if validAction action then PerformActionLoop p values encPath action values []
  else Except.ok values

end Gsp

namespace Gsp

/-- Claim C1: for a scalar not already carrying the marker, encrypting once
replaces it with the backend ciphertext (which bears the marker), and a
second application of the encrypt action returns that ciphertext unchanged
for an arbitrary backend — i.e. without consulting the backend at all. -/
theorem encrypt_idempotent (p : Pki) (x c : String)
    (h1 : isEncrypted x = false)
    (h2 : p.EncryptSecret x = (c, none))
    (h3 : isEncrypted c = true) :
    doString p x Encrypt = (c, none) ∧
      ∀ q : Pki, doString q c Encrypt = (c, none) := by
  constructor
  · simp [doString, Encrypt, Decrypt, h1, h2]
  · intro q
    simp [doString, Encrypt, Decrypt, h3]

/-- Witness for C1 at a concrete input: `"hunter2"` is unmarked, the model
backend produces marked ciphertext, and both conclusions hold there. -/
theorem encrypt_idempotent_witness :
    isEncrypted "hunter2" = false ∧
      doString pkiOk "hunter2" Encrypt = (pgpHeader ++ " " ++ "hunter2", none) ∧
      doString pkiOk (pgpHeader ++ " " ++ "hunter2") Encrypt
        = (pgpHeader ++ " " ++ "hunter2", none) := by
  have h := encrypt_idempotent pkiOk "hunter2" (pgpHeader ++ " " ++ "hunter2")
    (by decide) (by simp [pkiOk]) (by decide)
  exact ⟨by decide, h.1, h.2 pkiOk⟩

/-- Claim C7: on a scalar lacking the marker, the decrypt step of rotation
is a no-op (returns the value unchanged, no error) and rotation returns
exactly the backend encryption of the plaintext. -/
theorem rotate_plaintext (p : Pki) (x c : String)
    (h1 : isEncrypted x = false)
    (h2 : p.EncryptSecret x = (c, none)) :
    decryptVal p x = (x, none) ∧
      rotateVal p x = (c, none) ∧
      doString p x Rotate = (c, none) := by
  have hd : decryptVal p x = (x, none) := by simp [decryptVal, h1]
  have hr : rotateVal p x = (c, none) := by simp [rotateVal, hd, h2]
  refine ⟨hd, hr, ?_⟩
  simp [doString, Rotate, Decrypt, Encrypt, Validate, hr]

/-- Witness for C7 at a concrete plaintext input. -/
theorem rotate_plaintext_witness :
    isEncrypted "hunter2" = false ∧
      doString pkiOk "hunter2" Rotate = (pgpHeader ++ " " ++ "hunter2", none) := by
  have h := rotate_plaintext pkiOk "hunter2" (pgpHeader ++ " " ++ "hunter2")
    (by decide) (by simp [pkiOk])
  exact ⟨by decide, h.2.2⟩

/-- Claim C10: any scalar containing the marker anywhere as a substring is
treated as already encrypted: the encrypt action returns it unchanged for
every backend (so it is never encrypted), and the decrypt action hands it
to the backend. -/
theorem marker_substring_treated_encrypted (s : String)
    (h : isEncrypted s = true) :
    (∀ p : Pki, doString p s Encrypt = (s, none)) ∧
      (∀ (p : Pki) (pt : String), p.DecryptSecret s = (pt, none) →
        doString p s Decrypt = (pt, none)) := by
  constructor
  · intro p
    simp [doString, Encrypt, Decrypt, h]
  · intro p pt hp
    simp [doString, Decrypt, decryptVal, h, hp]

/-- Witness for C10: a plaintext-looking value that merely mentions the PGP
marker in its middle (it is not a prefix) is left unchanged by encrypt and
passed to the backend by decrypt. -/
theorem marker_substring_treated_encrypted_witness :
    isEncrypted ("note -----BEGIN PGP MESSAGE----- note") = true ∧
      ("-----BEGIN PGP MESSAGE-----".data.isPrefixOf
        "note -----BEGIN PGP MESSAGE----- note".data) = false ∧
      doString pkiOk ("note -----BEGIN PGP MESSAGE----- note") Encrypt
        = ("note -----BEGIN PGP MESSAGE----- note", none) ∧
      doString pkiOk ("note -----BEGIN PGP MESSAGE----- note") Decrypt
        = ("note -----BEGIN PGP MESSAGE----- note", none) := by
  have h := marker_substring_treated_encrypted
    ("note -----BEGIN PGP MESSAGE----- note") (by decide)
  exact ⟨by decide, by decide, h.1 pkiOk, h.2 pkiOk _ (by simp [pkiOk])⟩

end Gsp

namespace Gsp

/-- A backend for counterexamples whose encryption fails exactly on the
input `"BAD"` and otherwise prepends the PGP marker. -/
def pkiErr : Pki :=
  ⟨fun s => if s = "BAD" then ("", some "encrypt failed") else (pgpHeader ++ " " ++ s, none),
   fun s => (s, none),
   fun _ => ("KEY-ID", none)⟩

/-- Claim C4 (amended): for every backend, action and null-free document
tree, the dispatcher preserves the complete shape — top-level and nested
mapping key sets, the kind of every node, and the length and order of
every sequence; only scalar leaf content changes.  (The restriction to
null-free trees is forced by the counterexample: a null value inside a
mapping makes the Go loop return early, dropping the remaining keys.) -/
theorem dispatcher_preserves_shape (p : Pki) (a : String) (v : SVal)
    (h : nullFree v = true) :
    shapeOf (ProcessValues p a v).1 = shapeOf v :=
  (shapeAll p a (sizeOf v)).2.2.2.2 v le_rfl h

/-- Witness for C4 (amended) on a concrete nested document. -/
theorem dispatcher_preserves_shape_witness :
    nullFree (SVal.map [("secure_vars",
        SVal.map [("password", SVal.str "hunter2"),
                  ("hosts", SVal.list [SVal.str "a", SVal.str "b"])])]) = true ∧
      shapeOf (ProcessValues pkiOk Encrypt
          (SVal.map [("secure_vars",
            SVal.map [("password", SVal.str "hunter2"),
                      ("hosts", SVal.list [SVal.str "a", SVal.str "b"])])])).1
        = shapeOf (SVal.map [("secure_vars",
            SVal.map [("password", SVal.str "hunter2"),
                      ("hosts", SVal.list [SVal.str "a", SVal.str "b"])])]) := by
  refine ⟨by simp, ?_⟩
  exact dispatcher_preserves_shape pkiOk Encrypt _ (by simp)

/-- Counterexample to C4 as stated: a mapping with a null value under its
first key loses every later key — the dispatcher returns the empty
mapping for a two-key input, so key sets are not preserved on all trees. -/
theorem dispatcher_shape_counterexample :
    ProcessValues pkiOk Encrypt (SVal.map [("k1", SVal.null), ("k2", SVal.str "x")])
        = (SVal.map [], none) ∧
      shapeOf (SVal.map [("k1", SVal.null), ("k2", SVal.str "x")])
        = SVal.map [("k1", SVal.null), ("k2", SVal.str "")] ∧
      SVal.map ([] : List (String × SVal))
        ≠ SVal.map [("k1", SVal.null), ("k2", SVal.str "")] := by
  refine ⟨by simp [ProcessValues, doMap, doMapLoop], by simp, ?_⟩
  intro h
  simp at h

/-- Claim C5 (amended): fail-fast holds for sequences — the first erroring
item makes `doSlice` return the original slice together with that error —
but inside a mapping the loop continues past an erroring entry and each
entry overwrites the stored error, so an entry error followed by a
successful entry is lost and the transformed mapping is reported
error-free. -/
theorem failfast_slices_but_maps_mask (p : Pki) (a : String)
    (k1 k2 s1 s2 r1 r2 e1 : String) (rest : List SVal)
    (h1 : doString p s1 a = (r1, some e1))
    (h2 : doString p s2 a = (r2, none)) :
    doSlice p a (SVal.str s1 :: rest) = (SVal.list (SVal.str s1 :: rest), some e1) ∧
      doMap p a [(k1, SVal.str s1), (k2, SVal.str s2)]
        = ([(k1, SVal.str r1), (k2, SVal.str r2)], none) := by
  constructor
  · rw [doSlice, doSliceAux, h1]
  · rw [doMap, doMapLoop]
    simp only [h1]
    rw [doMapLoop]
    simp only [h2]
    rw [doMapLoop]
    simp

/-- Witness for C5 (amended) with the concrete failing backend. -/
theorem failfast_slices_but_maps_mask_witness :
    doString pkiErr "BAD" Encrypt = ("BAD", some "encrypt failed") ∧
      doSlice pkiErr Encrypt [SVal.str "BAD", SVal.str "OK"]
        = (SVal.list [SVal.str "BAD", SVal.str "OK"], some "encrypt failed") ∧
      doMap pkiErr Encrypt [("a", SVal.str "BAD"), ("b", SVal.str "OK")]
        = ([("a", SVal.str "BAD"), ("b", SVal.str (pgpHeader ++ " " ++ "OK"))], none) := by
  have hb : doString pkiErr "BAD" Encrypt = ("BAD", some "encrypt failed") := by
    have h : isEncrypted "BAD" = false := by decide
    simp [doString, Encrypt, Decrypt, pkiErr, h]
  have ho : doString pkiErr "OK" Encrypt = (pgpHeader ++ " " ++ "OK", none) := by
    have h : isEncrypted "OK" = false := by decide
    simp [doString, Encrypt, Decrypt, pkiErr, h]
  have hmain := failfast_slices_but_maps_mask pkiErr Encrypt
    "a" "b" "BAD" "OK" "BAD" (pgpHeader ++ " " ++ "OK") "encrypt failed"
    [SVal.str "OK"] hb ho
  exact ⟨hb, hmain.1, hmain.2⟩

/-- Counterexample to C5 as stated: the first leaf error inside a mapping
is neither returned to the caller nor does it abort the recursion — the
whole-document pass returns a transformed (committed) tree with no error
even though encrypting the first leaf failed. -/
theorem failfast_counterexample :
    doString pkiErr "BAD" Encrypt = ("BAD", some "encrypt failed") ∧
      PerformAction pkiErr [("top", SVal.map [("a", SVal.str "BAD"), ("b", SVal.str "OK")])]
          "" Encrypt
        = Except.ok [("top", SVal.map [("a", SVal.str "BAD"),
            ("b", SVal.str (pgpHeader ++ " " ++ "OK"))])] := by
  have hbad : isEncrypted "BAD" = false := by decide
  have hok : isEncrypted "OK" = false := by decide
  constructor
  · simp [doString, Encrypt, Decrypt, pkiErr, hbad]
  · simp [PerformAction, PerformActionLoop, validAction, Encrypt, Decrypt, Validate, Rotate,
      GetValueFromPath, goSplit, splitCharsOn, yamlGet, lookupKey,
      ProcessValues, doMap, doMapLoop, doString, pkiErr, hbad, hok]

end Gsp

namespace Gsp

/-- A key that contains no colon: exactly the keys that survive the
round-trip through `GetValueFromPath` (which re-splits every top-level key
on the colon). -/
def colonFree (s : String) : Bool := s.data.all (fun ch => ch ≠ ':')

theorem splitCharsOn_noSep (c : Char) (l : List Char) (h : ∀ ch ∈ l, ch ≠ c) :
    splitCharsOn c l = [l] := by
  induction l with
  | nil => rfl
  | cons ch rest ih =>
    have hch : ch ≠ c := h ch (by simp)
    have hrest : ∀ x ∈ rest, x ≠ c := fun x hx => h x (by simp [hx])
    simp [splitCharsOn, hch, ih hrest]

theorem goSplit_colonFree (s : String) (h : colonFree s = true) :
    goSplit s ':' = [s] := by
  have h2 : ∀ ch ∈ s.data, ch ≠ ':' := by
    simpa [colonFree, List.all_eq_true] using h
  simp [goSplit, splitCharsOn_noSep ':' s.data h2]

theorem lookupKey_of_nodup (values : List (String × SVal)) (k : String) (v : SVal)
    (hnd : (values.map Prod.fst).Nodup) (hmem : (k, v) ∈ values) :
    lookupKey values k = some v := by
  induction values with
  | nil => simp at hmem
  | cons kv rest ih =>
    obtain ⟨k2, v2⟩ := kv
    simp only [List.map_cons, List.nodup_cons] at hnd
    obtain ⟨hk2, hndr⟩ := hnd
    rcases List.mem_cons.mp hmem with heq | hmemr
    · cases heq
      simp [lookupKey]
    · have hne : k2 ≠ k := by
        intro hkk
        exact hk2 (hkk ▸ List.mem_map.mpr ⟨(k, v), hmemr, rfl⟩)
      simp [lookupKey, hne, ih hndr hmemr]

end Gsp

namespace Gsp

theorem PerformActionLoop_char (p : Pki) (values : List (String × SVal))
    (x action : String) (hx : x ≠ "") :
    ∀ (work stuff0 stuff : List (String × SVal)),
      (∀ kv ∈ work, GetValueFromPath values kv.1 = kv.2) →
      PerformActionLoop p values x action work stuff0 = Except.ok stuff →
      stuff = stuff0 ++ work.map (fun kv =>
        if x = kv.1 then (kv.1, (ProcessValues p action kv.2).1) else kv) := by
  intro work
  induction work with
  | nil =>
    intro stuff0 stuff _ h
    rw [PerformActionLoop] at h
    simp only [Except.ok.injEq] at h
    simp [h]
  | cons kv rest ih =>
    obtain ⟨key, v⟩ := kv
    intro stuff0 stuff hget hloop
    have hgv : GetValueFromPath values key = v := hget (key, v) (by simp)
    rw [PerformActionLoop] at hloop
    simp only [hgv, hx, if_true, ne_eq, not_false_eq_true, if_pos] at hloop
    by_cases hxk : x = key
    · rw [if_pos hxk] at hloop
      rcases hpv : ProcessValues p action v with ⟨r, e⟩
      rw [hpv] at hloop
      match e with
      | some e0 => simp at hloop
      | none =>
        simp only at hloop
        have := ih (stuff0 ++ [(key, r)]) stuff
          (fun kv2 h2 => hget kv2 (by simp [h2])) hloop
        simp [this, hxk, hpv]
    · rw [if_neg hxk] at hloop
      have := ih (stuff0 ++ [(key, v)]) stuff
        (fun kv2 h2 => hget kv2 (by simp [h2])) hloop
      simp [this, hxk]

/-- Claim C6 (amended): with a non-empty top-level scope key `x`, for
every document whose top-level keys are unique and colon-free, a
successful pass applies the action only to the value at key `x` and
passes every other top-level entry through unchanged.  (The restriction
to colon-free keys is forced by the counterexample: every key is
re-resolved through the colon-splitting path getter, so a top-level key
containing a colon is re-read as a nested path and its value is
replaced.) -/
theorem performAction_scope_isolation (p : Pki) (action x : String)
    (values stuff : List (String × SVal))
    (hva : validAction action = true) (hx : x ≠ "")
    (hnd : (values.map Prod.fst).Nodup)
    (hcf : ∀ kv ∈ values, colonFree kv.1 = true)
    (hok : PerformAction p values x action = Except.ok stuff) :
    stuff = values.map (fun kv =>
      if x = kv.1 then (kv.1, (ProcessValues p action kv.2).1) else kv) := by
  rw [PerformAction, if_pos hva] at hok
  have hget : ∀ kv ∈ values, GetValueFromPath values kv.1 = kv.2 := by
    intro kv hkv
    obtain ⟨k, v⟩ := kv
    rw [GetValueFromPath, goSplit_colonFree _ (hcf _ hkv)]
    simp [yamlGet, lookupKey_of_nodup values k v hnd hkv]
  simpa using PerformActionLoop_char p values x action hx values [] stuff hget hok

/-- Witness for C6 (amended) on a two-key document scoped to `"x"`. -/
theorem performAction_scope_isolation_witness :
    PerformAction pkiOk [("x", SVal.str "p"), ("y", SVal.str "q")] "x" Encrypt
        = Except.ok [("x", SVal.str (pgpHeader ++ " " ++ "p")), ("y", SVal.str "q")] ∧
      [("x", SVal.str (pgpHeader ++ " " ++ "p")), ("y", SVal.str "q")]
        = [("x", SVal.str "p"), ("y", SVal.str "q")].map (fun kv =>
            if "x" = kv.1 then (kv.1, (ProcessValues pkiOk Encrypt kv.2).1) else kv) := by
  have hcomp : PerformAction pkiOk [("x", SVal.str "p"), ("y", SVal.str "q")] "x" Encrypt
      = Except.ok [("x", SVal.str (pgpHeader ++ " " ++ "p")), ("y", SVal.str "q")] := by
    have hp : isEncrypted "p" = false := by decide
    simp [PerformAction, PerformActionLoop, validAction, Encrypt, Decrypt, Validate, Rotate,
      GetValueFromPath, goSplit, splitCharsOn, yamlGet, lookupKey,
      ProcessValues, doString, pkiOk, hp]
  refine ⟨hcomp, ?_⟩
  exact performAction_scope_isolation pkiOk Encrypt "x"
    [("x", SVal.str "p"), ("y", SVal.str "q")] _
    (by decide) (by decide) (by simp) (by decide) hcomp

/-- Counterexample to C6 as stated: a top-level key containing a colon
(`"a:b"`) is not passed through unchanged — the pass re-resolves it as the
nested path `a.b`, finds nothing, and emits null in place of its value. -/
theorem scope_isolation_counterexample :
    PerformAction pkiOk [("a:b", SVal.str "v"), ("x", SVal.str "p")] "x" Encrypt
        = Except.ok [("a:b", SVal.null), ("x", SVal.str (pgpHeader ++ " " ++ "p"))] ∧
      SVal.null ≠ SVal.str "v" := by
  have hp : isEncrypted "p" = false := by decide
  constructor
  · simp [PerformAction, PerformActionLoop, validAction, Encrypt, Decrypt, Validate, Rotate,
      GetValueFromPath, goSplit, splitCharsOn, yamlGet, lookupKey,
      ProcessValues, doString, pkiOk, hp]
  · intro h
    simp at h

end Gsp

namespace Gsp

/-- Claim C8 (amended): identify-key on a non-encrypted scalar yields the
error `value is not encrypted` at the leaf in every mode; in
whole-document mode that error propagates like any other leaf error — a
document whose only leaf is plaintext makes the whole pass abort with
that error, and when a later entry of the same mapping succeeds the error
is overwritten and the plaintext leaf remains present in the result with
its original value (it is not absent). -/
theorem validate_plaintext_behavior (p : Pki) (k1 k2 v c ki : String)
    (hv : isEncrypted v = false) (hc : isEncrypted c = true)
    (hki : p.KeyUsedForEncryptedFile c = (ki, none)) :
    keyInfo p v = (v, some "value is not encrypted") ∧
      PerformAction p [("a", SVal.str v)] "" Validate
        = Except.error "value is not encrypted" ∧
      doMap p Validate [(k1, SVal.str v), (k2, SVal.str c)]
        = ([(k1, SVal.str v), (k2, SVal.str ki)], none) := by
  have hkv : keyInfo p v = (v, some "value is not encrypted") := by
    simp [keyInfo, hv]
  have hdv : doString p v Validate = (v, some "value is not encrypted") := by
    simp [doString, Validate, Decrypt, Encrypt, hkv]
  have hdc : doString p c Validate = (ki, none) := by
    simp [doString, Validate, Decrypt, Encrypt, keyInfo, hc, hki]
  have hdv2 : doString p v "validate" = (v, some "value is not encrypted") := hdv
  refine ⟨hkv, ?_, ?_⟩
  · simp [PerformAction, PerformActionLoop, validAction, Encrypt, Decrypt, Validate, Rotate,
      GetValueFromPath, goSplit, splitCharsOn, yamlGet, lookupKey, ProcessValues, hdv2]
  · rw [doMap, doMapLoop]
    simp only [hdv]
    rw [doMapLoop]
    simp only [hdc]
    rw [doMapLoop]
    simp

/-- Witness for C8 (amended) with concrete plaintext and ciphertext. -/
theorem validate_plaintext_behavior_witness :
    keyInfo pkiOk "plain" = ("plain", some "value is not encrypted") ∧
      PerformAction pkiOk [("a", SVal.str "plain")] "" Validate
        = Except.error "value is not encrypted" ∧
      doMap pkiOk Validate [("a", SVal.str "plain"), ("b", SVal.str pgpHeader)]
        = ([("a", SVal.str "plain"), ("b", SVal.str "KEY-ID")], none) := by
  exact validate_plaintext_behavior pkiOk "a" "b" "plain" pgpHeader "KEY-ID"
    (by decide) (by decide) (by simp [pkiOk])

/-- Counterexample to C8 as stated: in whole-document mode a plaintext
leaf does not leave the pass completing with the leaf absent — the pass
aborts with the single-path error `value is not encrypted`. -/
theorem validate_wholedoc_counterexample :
    PerformAction pkiOk [("a", SVal.str "plain")] "" Validate
      = Except.error "value is not encrypted" := by
  have hv : isEncrypted "plain" = false := by decide
  have hdv : doString pkiOk "plain" "validate" = ("plain", some "value is not encrypted") := by
    simp [doString, Validate, Decrypt, Encrypt, keyInfo, hv]
  simp [PerformAction, PerformActionLoop, validAction, Encrypt, Decrypt, Validate, Rotate,
    GetValueFromPath, goSplit, splitCharsOn, yamlGet, lookupKey, ProcessValues, hdv]

end Gsp

namespace Gsp

/-- The lines of a byte buffer, split on the newline char; embeds the
`bufio.Scanner` line iteration of `ScanForIncludes` (the scanner also
strips a trailing carriage return and yields no final empty line — both
immaterial to a `contains` check against a marker that holds neither). -/
def linesOf (s : String) : List String := goSplit s '\n'

/-- `ScanForIncludes` from sls.go: report an error when any line of the
input contains the text `include:`.  The Go message prefixes
`shortFileName(s.FilePath)`, which merely strips the working directory
from the path for display; it is embedded as the path itself. -/
def ScanForIncludes (filePath content : String) : Option String :=
  if (linesOf content).any (fun l => containsSubstr l "include:") then
    some (filePath ++ " contains include directives")
  else none

/-- The observable state `ReadBytes` leaves on the `Sls` object: the
parsed top-level values and the `IsInclude` flag. -/
structure SlsState where
  values : List (String × SVal)
  isInclude : Bool

/-- `ReadBytes` from sls.go.  The include scan runs first; when it
reports an error the Go code only sets `IsInclude` and logs a warning —
the error is not returned.  The function then always runs the structural
parse (`yamlv2.Unmarshal`, an external library embedded as the `parse`
parameter) and returns its outcome.  On a parse error the Go `Values`
are left in an unspecified partial state; the model uses the empty
mapping there (no theorem depends on it). -/
def ReadBytes (parse : String → Except String (List (String × SVal)))
    (filePath buf : String) : SlsState × Option String :=
  let inc := (ScanForIncludes filePath buf).isSome
  match parse buf with
  | Except.ok vs => (⟨vs, inc⟩, none)
  | Except.error e => (⟨[], inc⟩, some e)

/-- The name of the standard output stream, `os.Stdout.Name()`. -/
def stdoutName : String := "/dev/stdout"

/-- `ReadSlsFile` from sls.go over an explicit filesystem (a map from
path to contents; directories and permission bits are not modelled — the
`MkdirAll` and `O_CREATE` open are assumed to succeed, and
`filepath.Abs` is the identity).  An empty path errors; the stdout name
returns at once; a missing file is created empty; the (possibly just
created) file is then read and handed to `ReadBytes`.  Returns the
updated filesystem, the resulting state and the error. -/
def ReadSlsFile (parse : String → Except String (List (String × SVal)))
    (fs : String → Option String) (filePath : String) :
    (String → Option String) × SlsState × Option String :=
  if filePath.length = 0 then (fs, ⟨[], false⟩, some "no file path given")
  else if filePath = stdoutName then (fs, ⟨[], false⟩, none)
  else
    let fs1 : String → Option String :=
      fun q => if q = filePath then some ((fs filePath).getD "") else fs q
    let buf := (fs1 filePath).getD ""
    let r := ReadBytes parse filePath buf
    (fs1, r.1, r.2)

/-- A parse stub for counterexamples: a constant successful parse result
standing in for the external YAML library on the specific input used. -/
def parseConst : String → Except String (List (String × SVal)) :=
  fun _ => Except.ok [("include", SVal.list [SVal.str "base"])]

/-- A parse stub returning the empty mapping, the behavior of
`yamlv2.Unmarshal` on the empty input. -/
def parseEmpty : String → Except String (List (String × SVal)) :=
  fun _ => Except.ok []

/-- The empty filesystem: no path exists. -/
def fsEmpty : String → Option String := fun _ => none

/-- Claim C2 (amended): a buffer containing a line with `include:`
anywhere is detected by the pre-parse line scan, which sets the
`IsInclude` flag; but the include error itself is only logged, not
returned — the structural parse still runs and its outcome (a parsed
document on success, with no error) is what loading returns. -/
theorem include_detected_flagged
    (parse : String → Except String (List (String × SVal)))
    (fp buf : String) (vs : List (String × SVal))
    (hinc : (linesOf buf).any (fun l => containsSubstr l "include:") = true)
    (hparse : parse buf = Except.ok vs) :
    ScanForIncludes fp buf = some (fp ++ " contains include directives") ∧
      ReadBytes parse fp buf = (⟨vs, true⟩, none) := by
  have hscan : ScanForIncludes fp buf = some (fp ++ " contains include directives") := by
    simp [ScanForIncludes, hinc]
  exact ⟨hscan, by simp [ReadBytes, hscan, hparse]⟩

/-- Witness for C2 (amended) on a concrete two-line document whose first
line is an include directive. -/
theorem include_detected_flagged_witness :
    ScanForIncludes "top.sls" "include:\n- base"
        = some ("top.sls contains include directives") ∧
      ReadBytes parseConst "top.sls" "include:\n- base"
        = (⟨[("include", SVal.list [SVal.str "base"])], true⟩, none) :=
  include_detected_flagged parseConst "top.sls" "include:\n- base"
    [("include", SVal.list [SVal.str "base"])] (by decide) rfl

/-- Counterexample to C2 as stated: on an input containing an `include:`
line, loading is not rejected — `ReadBytes` returns no error and a parsed
document (the include detection only raises the `IsInclude` flag). -/
theorem include_not_rejected_counterexample :
    ReadBytes parseConst "top.sls" "include:\n- base"
        = (⟨[("include", SVal.list [SVal.str "base"])], true⟩, none) ∧
      (⟨[("include", SVal.list [SVal.str "base"])], true⟩ : SlsState).values ≠ [] := by
  refine ⟨rfl, ?_⟩
  intro h
  simp at h

/-- Claim C9 (amended): for every non-empty path other than the stdout
stream name that does not exist in the filesystem, reading does not fail:
the file is created empty and an empty document is returned with no
error (the empty input parses to the empty mapping). -/
theorem read_missing_creates_empty
    (parse : String → Except String (List (String × SVal)))
    (fs : String → Option String) (path : String)
    (h0 : path.length ≠ 0) (h1 : path ≠ stdoutName) (h2 : fs path = none)
    (h3 : parse "" = Except.ok []) :
    ReadSlsFile parse fs path
      = (fun q => if q = path then some "" else fs q, ⟨[], false⟩, none) := by
  rw [ReadSlsFile, if_neg h0, if_neg h1]
  have hscan : ScanForIncludes path "" = none := by
    simp [ScanForIncludes, linesOf, goSplit, splitCharsOn, containsSubstr, containsAux]
  simp [h2, ReadBytes, hscan, h3]

/-- Witness for C9 (amended): reading a missing concrete path creates it
empty and yields the empty document without error. -/
theorem read_missing_creates_empty_witness :
    ReadSlsFile parseEmpty fsEmpty "pillar/top.sls"
      = (fun q => if q = "pillar/top.sls" then some "" else fsEmpty q,
         ⟨[], false⟩, none) :=
  read_missing_creates_empty parseEmpty fsEmpty "pillar/top.sls"
    (by decide) (by decide) rfl rfl

/-- Counterexample to C9 as stated: the empty path does not exist in the
empty filesystem, yet reading it fails with an error and creates
nothing, instead of returning an empty document. -/
theorem read_missing_counterexample :
    fsEmpty "" = none ∧
      ReadSlsFile parseEmpty fsEmpty "" = (fsEmpty, ⟨[], false⟩, some "no file path given") :=
  ⟨rfl, rfl⟩

end Gsp

namespace Gsp

/-- Failure injection for one `atomicWrite` call: one flag per fallible
step of the Go code (`ioutil.TempFile`, `f.Write`, `f.Sync`, `f.Close`,
`os.Chmod`, `os.Create` of the destination), plus the outcome of the
`io.Copy` into the destination: how many chars actually landed and
whether the copy itself reported an error. -/
structure AwEnv where
  tempFail : Bool
  writeFail : Bool
  syncFail : Bool
  closeFail : Bool
  chmodFail : Bool
  createFail : Bool
  copied : Nat
  copyFail : Bool

/-- The first `n` chars of a string. -/
def strTake (s : String) (n : Nat) : String := String.mk (s.data.take n)

/-- The temp-file name: `ioutil.TempFile("", "gsp-" + name)`; the unique
suffix is abstracted away (only the error message depends on it). -/
def tmpName (fullPath : String) : String := "gsp-" ++ fullPath

/-- `copyFile` from sls.go, acting on the destination contents (the stat
and open of the just-written source cannot fail and are not modelled).
`os.Create(dst)` truncates the destination before any byte is copied; a
failing create leaves the destination untouched; `io.Copy` transfers
`copied` chars and may report an error; a silent short transfer trips
the size check with the Go `%d/%d copied` message. -/
def copyFile (env : AwEnv) (srcName srcContent : String) (dst : Option String) :
    Option String × Option String :=
  if env.createFail then (dst, some "create failed")
  else
    let part := strTake srcContent env.copied
    if env.copyFail then (some part, some "copy failed")
    else if env.copied ≠ srcContent.length then
      (some part, some (srcName ++ ": " ++ toString env.copied ++ "/"
        ++ toString srcContent.length ++ " copied"))
    else (some srcContent, none)

/-- `atomicWrite` from sls.go, tracking the destination contents: write
the buffer to a temp file, sync, close and chmod it (each step runs, but
only the first error is kept — the Go `if err == nil` chains), and only
when all of that succeeded copy the temp file over the destination.  The
returned byte count and the final temp-file removal do not touch the
destination and are not modelled. -/
def atomicWrite (env : AwEnv) (fullPath buffer : String) (dst : Option String) :
    Option String × Option String :=
  if env.tempFail then (dst, some "temp create failed")
  else
    let err1 : Option String :=
      if env.writeFail then some "write failed"
      else if env.syncFail then some "sync failed"
      else none
    let err2 : Option String :=
      match err1 with
      | some e => some e
      | none => if env.closeFail then some "close failed" else none
    let err3 : Option String :=
      match err2 with
      | some e => some e
      | none => if env.chmodFail then some "chmod failed" else none
    match err3 with
    | some e => (dst, some e)
    | none => copyFile env (tmpName fullPath) buffer dst

/-- The injection used by the C3 counterexample: every step succeeds but
the copy silently transfers only 2 of the buffer chars. -/
def envShort : AwEnv := ⟨false, false, false, false, false, false, 2, false⟩

/-- Claim C3 (amended): an error in any step before the destination copy
(temp-file creation, write, sync, close, chmod, or the create of the
destination itself) leaves the pre-existing destination unchanged, and
the operation reports failure.  (The restriction to pre-copy failures is
forced by the counterexample: a failure during the copy step leaves the
destination truncated to the partially copied prefix, because the Go
code re-creates the destination and copies into it rather than
renaming.) -/
theorem atomicWrite_precopy_preserves (env : AwEnv) (fullPath buffer : String)
    (dst : Option String)
    (h : env.tempFail = true ∨ env.writeFail = true ∨ env.syncFail = true ∨
      env.closeFail = true ∨ env.chmodFail = true ∨ env.createFail = true) :
    (atomicWrite env fullPath buffer dst).1 = dst ∧
      (atomicWrite env fullPath buffer dst).2.isSome = true := by
  obtain ⟨t, w, sy, cl, ch, cr, co, cf⟩ := env
  simp only at h
  cases t <;> cases w <;> cases sy <;> cases cl <;> cases ch <;> cases cr <;>
    simp_all [atomicWrite, copyFile]

/-- Witness for C3 (amended): a failed temp-file write reports the error
and leaves the old destination contents intact. -/
theorem atomicWrite_precopy_preserves_witness :
    (atomicWrite ⟨false, true, false, false, false, false, 0, false⟩ "f.sls" "NEWDATA"
        (some "OLDCONTENT")).1 = some "OLDCONTENT" ∧
      (atomicWrite ⟨false, true, false, false, false, false, 0, false⟩ "f.sls" "NEWDATA"
        (some "OLDCONTENT")).2.isSome = true :=
  atomicWrite_precopy_preserves ⟨false, true, false, false, false, false, 0, false⟩
    "f.sls" "NEWDATA" (some "OLDCONTENT") (by simp)

/-- Counterexample to C3 as stated: a short copy makes `atomicWrite`
return an error, yet the pre-existing destination has been truncated to
the two copied chars — it is not left byte-for-byte unchanged. -/
theorem atomicWrite_counterexample :
    atomicWrite envShort "f.sls" "NEWDATA" (some "OLDCONTENT")
        = (some "NE", some ("gsp-f.sls: 2/7 copied")) ∧
      some "NE" ≠ some "OLDCONTENT" := by
  refine ⟨rfl, ?_⟩
  intro h
  simp at h

end Gsp
